import Mathlib

/-
Verification of the places-to-visit API backend core logic.

Shallow embedding notes:
* JS strings are modelled as Lean `String`s assumed to be in NFD form, so the
  JS pipeline `toLowerCase().normalize("NFD").replace(combining marks, "")`
  becomes a per-character lowercase-and-filter pass.
* JS numbers used as payment amounts are modelled in integer cents (the code
  rounds every amount to two decimals before use, so cents are exact).
* File-system state (a country record file, the users file, the pending
  signups file) is threaded explicitly: each handler takes the parsed
  document(s) as input and returns the document(s) that end up on disk.
* Outbound oracles (OpenAI generation, PayPal capture, mail transport) are
  parameters: the generation oracle is a function returning the parsed city
  document (`none` = unparseable reply), the PayPal capture result is a
  record of the fields the handler inspects, mail delivery is a boolean.
-/

namespace PlacesAPI

/-- Model of the JS `normalizeName`: lowercase (ASCII, as `Char.toLower`)
and strip combining diacritical marks U+0300..U+036F (the effect of
`normalize("NFD").replace(/[̀-ͯ]/g, "")` on NFD-form input). -/
def normalizeName (s : String) : String :=
  String.mk ((s.data.map Char.toLower).filter
    (fun c => !(decide (0x300 ≤ c.toNat ∧ c.toNat ≤ 0x36F))))

/-- Model of the JS `normalizeKey`: `normalizeName` then drop all whitespace. -/
def normalizeKey (s : String) : String :=
  String.mk ((normalizeName s).data.filter (fun c => !c.isWhitespace))

/-- Strip leading and trailing whitespace from a character list,
the effect of the JS `trim()`. -/
def trimChars (cs : List Char) : List Char :=
  ((cs.dropWhile Char.isWhitespace).reverse.dropWhile Char.isWhitespace).reverse

/-- Model of the JS `trim()` on strings. -/
def strTrim (s : String) : String :=
  String.mk (trimChars s.data)

/-- Model of the JS `normalizeEmail`: trim then lowercase. -/
def normalizeEmail (s : String) : String :=
  String.mk ((trimChars s.data).map Char.toLower)

/-- Collapse each maximal run of whitespace into a single space,
the effect of the JS `replace` with a one-or-more-whitespace pattern. -/
def collapseWs : List Char → List Char
  | [] => []
  | c :: cs =>
    let rest := collapseWs cs
    if c.isWhitespace then
      match cs with
      | [] => ' ' :: rest
      | d :: _ => if d.isWhitespace then rest else ' ' :: rest
    else c :: rest

/-- Model of the JS `normalizeUserName`: trim, `normalizeName`, collapse
inner whitespace runs to single spaces. -/
def normalizeUserName (s : String) : String :=
  String.mk (collapseWs (normalizeName (strTrim s)).data)

/-! ## Entitlement Resolver (`PLAN_RANK`, `planAllows`) -/

/-- The JS `PLAN_RANK` object: property lookup on the four known plan
identifiers, `none` for any other key. -/
def PLAN_RANK : String → Option Nat
  | "free" => some 0
  | "basic" => some 1
  | "premium" => some 2
  | "premium_plus" => some 3
  | _ => none

/-- The JS `planAllows(plan, allowed)`: rank the caller's plan (unknown
plan defaults to rank 0 via the nullish-coalescing operator), keep the
resolvable ranks of `allowed`, reject if none remain; if all remaining
ranks are the free rank the caller must be exactly free rank; otherwise
the caller's rank must reach the minimum remaining rank. -/
def planAllows (plan : String) (allowed : List String) : Bool :=
  match allowed.filterMap PLAN_RANK with
  | [] => false
  | r :: rs =>
    if (r :: rs).all (fun v => v == 0) then (PLAN_RANK plan).getD 0 == 0
    else decide (rs.foldl min r ≤ (PLAN_RANK plan).getD 0)

theorem foldl_min_mem (r : Nat) (rs : List Nat) : rs.foldl min r ∈ r :: rs := by
  induction rs generalizing r with
  | nil => simp
  | cons y ys ih =>
    simp only [List.foldl_cons]
    have h := ih (min r y)
    rcases List.mem_cons.mp h with h1 | h1
    · rw [h1]
      rcases Nat.le_total r y with hle | hle
      · rw [Nat.min_eq_left hle]; exact List.mem_cons_self _ _
      · rw [Nat.min_eq_right hle]
        exact List.mem_cons_of_mem _ (List.mem_cons_self _ _)
    · exact List.mem_cons_of_mem _ (List.mem_cons_of_mem _ h1)

theorem foldl_min_le (r : Nat) (rs : List Nat) :
    ∀ x ∈ r :: rs, rs.foldl min r ≤ x := by
  induction rs generalizing r with
  | nil =>
    intro x hx
    simp only [List.mem_singleton] at hx
    simp [hx]
  | cons y ys ih =>
    intro x hx
    have hhead : ys.foldl min (min r y) ≤ min r y :=
      ih (min r y) (min r y) (List.mem_cons_self _ _)
    simp only [List.foldl_cons]
    rcases List.mem_cons.mp hx with h1 | h1
    · subst h1
      exact le_trans hhead (Nat.min_le_left _ _)
    · rcases List.mem_cons.mp h1 with h2 | h2
      · subst h2
        exact le_trans hhead (Nat.min_le_right _ _)
      · exact ih (min r y) x (List.mem_cons_of_mem _ h2)

/-- C1: for every plan `p` and list `R` of acceptable plan names,
`planAllows p R` is true iff the resolvable ranks of `R` are non-empty and
the rank of `p` reaches their minimum, except that when every resolvable
rank of `R` is the free rank, `p`'s rank must equal the free rank; with no
resolvable rank (in particular `R` empty) the result is false, and an
unknown plan identifier for `p` is ranked as free (rank 0) under the
total order free < basic < premium < premium_plus. -/
theorem planAllows_correct (p : String) (R : List String) :
    planAllows p R = true ↔
      ∃ m ∈ R.filterMap PLAN_RANK,
        (∀ r ∈ R.filterMap PLAN_RANK, m ≤ r) ∧
        (if ∀ r ∈ R.filterMap PLAN_RANK, r = 0
          then (PLAN_RANK p).getD 0 = 0
          else m ≤ (PLAN_RANK p).getD 0) := by
  unfold planAllows
  cases hL : R.filterMap PLAN_RANK with
  | nil => simp
  | cons r rs =>
    dsimp only
    by_cases hall : ∀ x ∈ r :: rs, x = 0
    · have hb : (r :: rs).all (fun v => v == 0) = true := by
        rw [List.all_eq_true]
        intro x hx
        simpa using hall x hx
      rw [hb]
      simp only [if_pos hall, if_true, beq_iff_eq]
      constructor
      · intro h
        refine ⟨r, List.mem_cons_self _ _, ?_, h⟩
        intro x hx
        rw [hall x hx, hall r (List.mem_cons_self _ _)]
      · rintro ⟨m, _, _, h0⟩
        exact h0
    · have hb : ¬ ((r :: rs).all (fun v => v == 0) = true) := by
        intro hc
        rw [List.all_eq_true] at hc
        exact hall (fun x hx => by simpa using hc x hx)
      rw [Bool.not_eq_true] at hb
      rw [hb]
      simp only [if_neg hall, Bool.false_eq_true, if_false, decide_eq_true_eq]
      constructor
      · intro h
        exact ⟨rs.foldl min r, foldl_min_mem r rs, foldl_min_le r rs, h⟩
      · rintro ⟨m, hm, _, hmr⟩
        exact le_trans (foldl_min_le r rs m hm) hmr

/-! ## Payment Reconciliation (`src/routes/webhook.js`) -/

/-- A user record from `users.json`. `tokens = none` models a record whose
`tokens` field is missing or not a number (the code coerces it to 0 before
crediting). -/
structure User where
  id : String
  name : String
  email : String
  passwordHash : String
  plan : String
  tokens : Option Int
deriving Repr, DecidableEq

/-- The JS `AMOUNT_TO_TOKENS` table, with amounts in integer cents
(5, 10, 20 euros). -/
def AMOUNT_TO_TOKENS (cents : Int) : Option Int :=
  if cents = 500 then some 7
  else if cents = 1000 then some 20
  else if cents = 2000 then some 50
  else none

/-- The JS `AMOUNT_TO_PLAN` table, with amounts in integer cents. -/
def AMOUNT_TO_PLAN (cents : Int) : Option String :=
  if cents = 500 then some "basic"
  else if cents = 1000 then some "premium"
  else if cents = 2000 then some "premium_plus"
  else none

/-- The JS `resolveAllowedAmount`: an amount passes iff the token table has
a (truthy — all table values are nonzero) entry for it. -/
def resolveAllowedAmount (cents : Int) : Option Int :=
  if (AMOUNT_TO_TOKENS cents).isSome then some cents else none

/-- The in-place mutation of the found user inside `creditTokensForUser`:
coerce a missing/NaN `tokens` field to 0, add the granted tokens, and
overwrite the plan. -/
def creditUser (tokens : Int) (plan : String) (u : User) : User :=
  { u with tokens := some (u.tokens.getD 0 + tokens), plan := plan }

/-- The JS array is mutated through the reference returned by `find`;
in the persisted array this updates the first user whose normalized email
matches. -/
def updateFirstByEmail (email : String) (f : User → User) : List User → List User
  | [] => []
  | u :: us =>
    if normalizeEmail u.email = normalizeEmail email then f u :: us
    else u :: updateFirstByEmail email f us

inductive CreditErr
  | unsupportedAmount
  | userNotFound
deriving Repr, DecidableEq

structure CreditOk where
  user : User
  tokensAdded : Int
deriving Repr, DecidableEq

/-- The JS `creditTokensForUser(email, amount)`: look up the grant tables,
reject an unsupported amount, find the user by normalized email, reject if
absent, otherwise add tokens, overwrite the plan and persist the users
array. The returned list is the document written back to `users.json`. -/
def creditTokensForUser (email : String) (cents : Int) (users : List User) :
    Except CreditErr (CreditOk × List User) :=
  match AMOUNT_TO_TOKENS cents, AMOUNT_TO_PLAN cents with
  | some tokens, some plan =>
    match users.find? (fun u => normalizeEmail u.email == normalizeEmail email) with
    | none => .error .userNotFound
    | some u =>
      .ok (⟨creditUser tokens plan u, tokens⟩,
           updateFirstByEmail email (creditUser tokens plan) users)
  | _, _ => .error .unsupportedAmount

/-- The fields of a PayPal capture result that the capture-order handler
inspects. `status` is `capture.status` falling back to `order.status`;
`amountCents` is `normalizeAmountValue(capture.amount.value)` in cents
(`none` = missing or non-numeric); `payeeMerchantId` is
`purchase_units[0].payee.merchant_id` (`none` = absent). -/
structure Capture where
  status : Option String
  amountCents : Option Int
  currency : Option String
  payeeMerchantId : Option String
deriving Repr, DecidableEq

/-- Process configuration for the capture handler: `merchantId` is
`PAYPAL_MERCHANT_ID` (empty string = not configured, as in the JS
default), `jwtConfigured` is whether `JWT_SECRET` is set (the handler
signs a session token after crediting and throws without it). -/
structure PayCfg where
  merchantId : String
  jwtConfigured : Bool
deriving Repr, DecidableEq

inductive CaptureErr
  | notCompleted
  | invalidAmount
  | unsupportedAmount
  | payeeMismatch
  | userNotFound
  | jwtMissing
deriving Repr, DecidableEq

structure CaptureOk where
  plan : String
  tokensAdded : Int
  totalTokens : Option Int
deriving Repr, DecidableEq

/-- The payee gate inside the capture-order handler: with a configured
merchant identity, a capture is rejected only when the payee identifier is
present, truthy and different from the configured identity (an absent or
empty payee id short-circuits the inner check to false). -/
def payeeMismatch (merchantId : String) (payee : Option String) : Bool :=
  merchantId != "" &&
    (match payee with
      | some p => p != "" && p != merchantId
      | none => false)

/-- The capture-order handler from the point where the PayPal capture
result is available (OAuth and the capture network call are upstream
oracle effects that do not touch the users file). Returns the HTTP-level
outcome and the users document on disk after the call. -/
def captureOrder (cfg : PayCfg) (cap : Capture) (email : String) (users : List User) :
    Except CaptureErr CaptureOk × List User :=
  if cap.status ≠ some "COMPLETED" then (.error .notCompleted, users)
  else
    match cap.amountCents, cap.currency with
    | some value, some currency =>
      if value = 0 ∨ currency = "" ∨ currency ≠ "EUR" then (.error .invalidAmount, users)
      else
        match resolveAllowedAmount value with
        | none => (.error .unsupportedAmount, users)
        | some allowed =>
          if payeeMismatch cfg.merchantId cap.payeeMerchantId then
            (.error .payeeMismatch, users)
          else
            match creditTokensForUser email allowed users with
            | .error .unsupportedAmount => (.error .unsupportedAmount, users)
            | .error .userNotFound => (.error .userNotFound, users)
            | .ok (r, users') =>
              if cfg.jwtConfigured then
                (.ok ⟨r.user.plan, r.tokensAdded, r.user.tokens⟩, users')
              else (.error .jwtMissing, users')
    | _, _ => (.error .invalidAmount, users)

/-- Helper equation for a successful credit (shared by the payment
theorems): with an allow-listed amount and a found user, the credit
returns the updated user and writes the array with the first email match
replaced. -/
theorem creditTokensForUser_eq
    (users : List User) (email : String) (cents tok : Int) (pl : String)
    (u : User) (n : Int)
    (htok : AMOUNT_TO_TOKENS cents = some tok)
    (hpl : AMOUNT_TO_PLAN cents = some pl)
    (hfind : users.find? (fun v => normalizeEmail v.email == normalizeEmail email) = some u)
    (htokens : u.tokens = some n) :
    creditTokensForUser email cents users =
      .ok (⟨{ u with tokens := some (n + tok), plan := pl }, tok⟩,
           updateFirstByEmail email (creditUser tok pl) users) := by
  unfold creditTokensForUser
  rw [htok, hpl, hfind]
  simp [creditUser, htokens]

/-- C4: for every user record found by normalized email and every
allow-listed amount, a successful credit adds the allow-listed token count
to the user's existing tokens (additive) but sets the plan to the
allow-listed plan value by overwrite — the new plan does not depend on the
old one, so a repeated smaller payment downgrades a previously higher
plan. -/
theorem creditTokensForUser_additive_overwrite
    (users : List User) (email : String) (cents tok : Int) (pl : String)
    (u : User) (n : Int)
    (htok : AMOUNT_TO_TOKENS cents = some tok)
    (hpl : AMOUNT_TO_PLAN cents = some pl)
    (hfind : users.find? (fun v => normalizeEmail v.email == normalizeEmail email) = some u)
    (htokens : u.tokens = some n) :
    creditTokensForUser email cents users =
      .ok (⟨{ u with tokens := some (n + tok), plan := pl }, tok⟩,
           updateFirstByEmail email (creditUser tok pl) users) :=
  creditTokensForUser_eq users email cents tok pl u n htok hpl hfind htokens

/-- Fixture: a sample premium_plus user with 3 tokens. -/
def wUser : User := ⟨"u1", "alice", "a@x.com", "h", "premium_plus", some 3⟩

theorem creditTokensForUser_additive_overwrite_witness :
    (AMOUNT_TO_TOKENS 500 = some 7 ∧
     AMOUNT_TO_PLAN 500 = some "basic" ∧
     [wUser].find?
        (fun v : User => normalizeEmail v.email == normalizeEmail "a@x.com") = some wUser ∧
     wUser.tokens = some 3) ∧
    creditTokensForUser "a@x.com" 500 [wUser] =
      .ok (⟨{ wUser with tokens := some (3 + 7), plan := "basic" }, 7⟩,
           updateFirstByEmail "a@x.com" (creditUser 7 "basic") [wUser]) :=
  ⟨⟨by decide, by decide, by decide, rfl⟩,
   creditTokensForUser_additive_overwrite [wUser] "a@x.com" 500 7 "basic" wUser 3
     (by decide) (by decide) (by decide) rfl⟩

/-- Successful capture path, shared by the payment theorems: uppercase
completed status, EUR currency, allow-listed nonzero amount, passing payee
gate, JWT configured, user found with numeric tokens. -/
theorem captureOrder_ok_case
    (cfg : PayCfg) (email : String) (users : List User) (u : User) (n : Int)
    (payee : Option String) (cents tok : Int) (pl : String)
    (hjwt : cfg.jwtConfigured = true)
    (hpayee : payeeMismatch cfg.merchantId payee = false)
    (hfind : users.find? (fun v => normalizeEmail v.email == normalizeEmail email) = some u)
    (htokens : u.tokens = some n)
    (htok : AMOUNT_TO_TOKENS cents = some tok)
    (hpl : AMOUNT_TO_PLAN cents = some pl)
    (hc0 : ¬ cents = 0) :
    captureOrder cfg ⟨some "COMPLETED", some cents, some "EUR", payee⟩ email users =
      (.ok ⟨pl, tok, some (n + tok)⟩,
       updateFirstByEmail email (creditUser tok pl) users) := by
  have hres : resolveAllowedAmount cents = some cents := by
    unfold resolveAllowedAmount
    rw [htok]
    rfl
  have hcred := creditTokensForUser_eq users email cents tok pl u n htok hpl hfind htokens
  unfold captureOrder
  simp only [hres, hpayee, hcred, hjwt]
  simp [hc0]

/-- Any capture whose status is not the uppercase completed marker, whose
currency is not EUR, or whose amount is not allow-listed, is rejected with
the users file unchanged. Shared by the payment theorems. -/
theorem captureOrder_reject_case
    (cfg : PayCfg) (cap : Capture) (email : String) (users : List User)
    (hbad : cap.status ≠ some "COMPLETED" ∨ cap.currency ≠ some "EUR" ∨
      (∀ a : Int, cap.amountCents = some a → a ≠ 500 ∧ a ≠ 1000 ∧ a ≠ 2000)) :
    ∃ e, captureOrder cfg cap email users = (.error e, users) := by
  obtain ⟨st, amt, cur, py⟩ := cap
  by_cases hst : st = some "COMPLETED"
  · subst hst
    simp only [Capture.status, Capture.currency, Capture.amountCents, ne_eq,
      not_true_eq_false, false_or] at hbad
    unfold captureOrder
    simp only [ne_eq, not_true_eq_false, if_false]
    match amt, cur with
    | none, none => exact ⟨.invalidAmount, rfl⟩
    | none, some c => exact ⟨.invalidAmount, rfl⟩
    | some v, none => exact ⟨.invalidAmount, rfl⟩
    | some v, some c =>
      by_cases hcur : c = "EUR"
      · subst hcur
        rcases hbad with hbad | hbad
        · exact absurd rfl hbad
        · have hv := hbad v rfl
          by_cases hv0 : v = 0
          · subst hv0
            exact ⟨.invalidAmount, by simp⟩
          · have hresolve : resolveAllowedAmount v = none := by
              unfold resolveAllowedAmount AMOUNT_TO_TOKENS
              rcases hv with ⟨h1, h2, h3⟩
              simp [h1, h2, h3]
            refine ⟨.unsupportedAmount, ?_⟩
            simp [hv0, hresolve]
      · refine ⟨.invalidAmount, ?_⟩
        simp [hcur]
  · unfold captureOrder
    exact ⟨.notCompleted, by simp [hst]⟩

/-- C2 counterexample: a capture with the lowercase status "completed",
amount 5 EUR, a present target user, no merchant configured and JWT
configured, is rejected (string comparison in the handler is
case-sensitive and demands "COMPLETED"), with the users file unchanged —
so the claim that status "completed" credits 7 tokens is false. -/
theorem captureOrder_lowercase_status_rejected :
    captureOrder ⟨"", true⟩ ⟨some "completed", some 500, some "EUR", none⟩
      "a@x.com" [wUser] = (.error .notCompleted, [wUser]) := rfl

/-- C2 (amended): the accepted capture status is the uppercase
"COMPLETED". With status "COMPLETED", currency EUR, a configured JWT
secret, a passing payee gate and a target user present with numeric
tokens: amount 5 credits exactly 7 tokens and sets plan "basic", amount
10 credits 20 and "premium", amount 20 credits 50 and "premium_plus";
any other captured amount, currency, or status is rejected with the
target user's tokens and plan unchanged. -/
theorem captureOrder_amount_table
    (cfg : PayCfg) (email : String) (users : List User) (u : User) (n : Int)
    (payee : Option String)
    (hjwt : cfg.jwtConfigured = true)
    (hpayee : payeeMismatch cfg.merchantId payee = false)
    (hfind : users.find? (fun v => normalizeEmail v.email == normalizeEmail email) = some u)
    (htokens : u.tokens = some n) :
    (captureOrder cfg ⟨some "COMPLETED", some 500, some "EUR", payee⟩ email users =
       (.ok ⟨"basic", 7, some (n + 7)⟩,
        updateFirstByEmail email (creditUser 7 "basic") users)) ∧
    (captureOrder cfg ⟨some "COMPLETED", some 1000, some "EUR", payee⟩ email users =
       (.ok ⟨"premium", 20, some (n + 20)⟩,
        updateFirstByEmail email (creditUser 20 "premium") users)) ∧
    (captureOrder cfg ⟨some "COMPLETED", some 2000, some "EUR", payee⟩ email users =
       (.ok ⟨"premium_plus", 50, some (n + 50)⟩,
        updateFirstByEmail email (creditUser 50 "premium_plus") users)) ∧
    (∀ cap : Capture,
      (cap.status ≠ some "COMPLETED" ∨ cap.currency ≠ some "EUR" ∨
        (∀ a : Int, cap.amountCents = some a → a ≠ 500 ∧ a ≠ 1000 ∧ a ≠ 2000)) →
      ∃ e, captureOrder cfg cap email users = (.error e, users)) := by
  refine ⟨?_, ?_, ?_, ?_⟩
  · exact captureOrder_ok_case cfg email users u n payee 500 7 "basic"
      hjwt hpayee hfind htokens (by decide) (by decide) (by decide)
  · exact captureOrder_ok_case cfg email users u n payee 1000 20 "premium"
      hjwt hpayee hfind htokens (by decide) (by decide) (by decide)
  · exact captureOrder_ok_case cfg email users u n payee 2000 50 "premium_plus"
      hjwt hpayee hfind htokens (by decide) (by decide) (by decide)
  · intro cap hbad
    exact captureOrder_reject_case cfg cap email users hbad

theorem captureOrder_amount_table_witness :
    ((⟨"", true⟩ : PayCfg).jwtConfigured = true ∧
     payeeMismatch (⟨"", true⟩ : PayCfg).merchantId none = false ∧
     [wUser].find? (fun v : User => normalizeEmail v.email == normalizeEmail "a@x.com") =
       some wUser ∧
     wUser.tokens = some 3) ∧
    captureOrder ⟨"", true⟩ ⟨some "COMPLETED", some 500, some "EUR", none⟩ "a@x.com" [wUser] =
      (.ok ⟨"basic", 7, some (3 + 7)⟩,
       updateFirstByEmail "a@x.com" (creditUser 7 "basic") [wUser]) :=
  ⟨⟨rfl, by decide, by decide, rfl⟩,
   (captureOrder_amount_table ⟨"", true⟩ "a@x.com" [wUser] wUser 3 none
      rfl (by decide) (by decide) rfl).1⟩

/-- C3 counterexample: with a merchant identity configured ("MERCHANT")
but the order's payee identifier absent from the capture result, the
handler skips the payee comparison and credits the user anyway — so the
claim that a credit happens only when the payee identifier matches the
configured identity exactly is false. -/
theorem captureOrder_absent_payee_credited :
    captureOrder ⟨"MERCHANT", true⟩ ⟨some "COMPLETED", some 500, some "EUR", none⟩
      "a@x.com" [wUser] =
      (.ok ⟨"basic", 7, some 10⟩,
       [{ wUser with tokens := some 10, plan := "basic" }]) := rfl

/-- C3 (amended): when a merchant identity is configured, a capture whose
payee identifier is present, non-empty, and different from the configured
identity is rejected with no credit applied (users file unchanged); a
capture with an absent or empty payee identifier is not checked against
the merchant identity. -/
theorem captureOrder_payee_mismatch_rejected
    (cfg : PayCfg) (cap : Capture) (email : String) (users : List User) (p : String)
    (hm : cfg.merchantId ≠ "")
    (hp : cap.payeeMerchantId = some p)
    (hp0 : p ≠ "")
    (hne : p ≠ cfg.merchantId) :
    ∃ e, captureOrder cfg cap email users = (.error e, users) := by
  obtain ⟨st, amt, cur, py⟩ := cap
  simp only [Capture.payeeMerchantId] at hp
  subst hp
  by_cases hst : st = some "COMPLETED"
  · subst hst
    unfold captureOrder
    simp only [ne_eq, not_true_eq_false, if_false]
    match amt, cur with
    | none, none => exact ⟨.invalidAmount, rfl⟩
    | none, some c => exact ⟨.invalidAmount, rfl⟩
    | some v, none => exact ⟨.invalidAmount, rfl⟩
    | some v, some c =>
      by_cases hgate : v = 0 ∨ c = "" ∨ c ≠ "EUR"
      · exact ⟨.invalidAmount, by simp [hgate]⟩
      · cases hresolve : resolveAllowedAmount v with
        | none =>
          refine ⟨.unsupportedAmount, ?_⟩
          simp [hgate, hresolve]
        | some allowed =>
          have hmm : payeeMismatch cfg.merchantId (some p) = true := by
            unfold payeeMismatch
            simp [hm, hp0, hne]
          refine ⟨.payeeMismatch, ?_⟩
          simp [hgate, hresolve, hmm]
  · unfold captureOrder
    exact ⟨.notCompleted, by simp [hst]⟩

theorem captureOrder_payee_mismatch_rejected_witness :
    ((⟨"MERCHANT", true⟩ : PayCfg).merchantId ≠ "" ∧
     (⟨some "COMPLETED", some 500, some "EUR", some "OTHER"⟩ : Capture).payeeMerchantId =
       some "OTHER" ∧
     ("OTHER" : String) ≠ "" ∧
     ("OTHER" : String) ≠ (⟨"MERCHANT", true⟩ : PayCfg).merchantId) ∧
    ∃ e, captureOrder ⟨"MERCHANT", true⟩
      ⟨some "COMPLETED", some 500, some "EUR", some "OTHER"⟩ "a@x.com" [wUser] =
      (.error e, [wUser]) :=
  ⟨⟨by decide, rfl, by decide, by decide⟩,
   captureOrder_payee_mismatch_rejected ⟨"MERCHANT", true⟩
     ⟨some "COMPLETED", some 500, some "EUR", some "OTHER"⟩ "a@x.com" [wUser] "OTHER"
     (by decide) rfl (by decide) (by decide)⟩

/-! ## Record Store path confinement (`resolveCountryFile`) -/

/-- Split a character list into path segments at every `/`, the effect of
splitting a POSIX path string on the separator. -/
def splitSegsAux : List Char → List Char → List String
  | [], acc => [String.mk acc.reverse]
  | c :: cs, acc =>
    if c = '/' then String.mk acc.reverse :: splitSegsAux cs []
    else splitSegsAux cs (c :: acc)

/-- Path segments of a string (empty segments kept, as JS `split("/")`). -/
def splitSegs (s : String) : List String :=
  splitSegsAux s.data []

/-- Whether a path string is absolute (begins with the separator). -/
def isAbsPath (s : String) : Bool :=
  match s.data with
  | c :: _ => c = '/'
  | [] => false

/-- Does `s` end with `suffix` (JS `endsWith`)? -/
def strEndsWith (s suffix : String) : Bool :=
  suffix.data.isSuffixOf s.data

/-- One step of POSIX path normalization as performed by `path.resolve`:
empty and `.` segments are dropped, `..` pops the last segment (and is
dropped at the filesystem root). -/
def normStep (stack : List String) (seg : String) : List String :=
  if seg = "" ∨ seg = "." then stack
  else if seg = ".." then stack.dropLast
  else stack ++ [seg]

/-- Normalize the segments of a path on top of a base directory stack. -/
def normSegs (base : List String) (segs : List String) : List String :=
  segs.foldl normStep base

/-- The absolute countries root directory (`__dirname/data/countries`),
as its list of path segments; the concrete install prefix is irrelevant
to the confinement property. -/
def COUNTRIES_DIR : List String := ["app", "src", "data", "countries"]

/-- Model of `path.resolve(COUNTRIES_DIR, fileName)` on POSIX paths: an
absolute file name resolves from the filesystem root, a relative one from
the countries directory, with `..`, `.` and empty segments normalized
away. The result is the resolved absolute path as a segment list. -/
def pathResolve (fileName : String) : List String :=
  if isAbsPath fileName then normSegs [] (splitSegs fileName)
  else normSegs COUNTRIES_DIR (splitSegs fileName)

/-- The JS `resolveCountryFile(fileName)`: reject a missing name or one
not ending in `.json`; resolve the name against the countries directory
and reject unless the resolved path starts with the countries directory
followed by the separator. On a normalized absolute path, the JS
string-prefix test against `COUNTRIES_DIR + path.sep` is exactly the
segment-list test "COUNTRIES_DIR is a proper initial run of segments". -/
def resolveCountryFile (fileName : String) : Except String (List String) :=
  if fileName = "" ∨ ¬ strEndsWith fileName ".json" = true then
    .error "Invalid file name."
  else
    let resolvedPath := pathResolve fileName
    if COUNTRIES_DIR.isPrefixOf resolvedPath && resolvedPath != COUNTRIES_DIR then
      .ok resolvedPath
    else
      .error "Invalid file path."

/-- C5: resolution of an untrusted resource name fails whenever the name
does not end in `.json` or its resolved absolute path escapes the
countries root (covering traversal names with `../` and absolute paths
outside the root), and every successfully resolved path lies inside the
countries root — so no file outside the root is ever touched. -/
theorem resolveCountryFile_confined (fileName : String) :
    ((¬ strEndsWith fileName ".json" = true ∨ ¬ COUNTRIES_DIR <+: pathResolve fileName) →
      ∃ msg, resolveCountryFile fileName = .error msg) ∧
    (∀ p, resolveCountryFile fileName = .ok p →
      strEndsWith fileName ".json" = true ∧ COUNTRIES_DIR <+: p ∧ p = pathResolve fileName) := by
  unfold resolveCountryFile
  by_cases h1 : fileName = "" ∨ ¬ strEndsWith fileName ".json" = true
  · rw [if_pos h1]
    exact ⟨fun _ => ⟨"Invalid file name.", rfl⟩, fun p hp => by cases hp⟩
  · rw [if_neg h1]
    push_neg at h1
    obtain ⟨hne, hjson⟩ := h1
    by_cases h2 : COUNTRIES_DIR.isPrefixOf (pathResolve fileName)
        && pathResolve fileName != COUNTRIES_DIR
    · rw [if_pos h2]
      rw [Bool.and_eq_true] at h2
      have hpre : COUNTRIES_DIR <+: pathResolve fileName :=
        List.isPrefixOf_iff_prefix.mp h2.1
      constructor
      · intro hbad
        rcases hbad with hbad | hbad
        · exact absurd hjson hbad
        · exact absurd hpre hbad
      · intro p hp
        cases hp
        exact ⟨hjson, hpre, rfl⟩
    · rw [if_neg h2]
      exact ⟨fun _ => ⟨"Invalid file path.", rfl⟩, fun p hp => by cases hp⟩

theorem resolveCountryFile_confined_witness :
    ((¬ strEndsWith "../../etc/passwd.json" ".json" = true ∨
      ¬ COUNTRIES_DIR <+: pathResolve "../../etc/passwd.json") ∧
     ∃ msg, resolveCountryFile "../../etc/passwd.json" = .error msg) ∧
    ((¬ strEndsWith "/etc/shadow.json" ".json" = true ∨
      ¬ COUNTRIES_DIR <+: pathResolve "/etc/shadow.json") ∧
     ∃ msg, resolveCountryFile "/etc/shadow.json" = .error msg) ∧
    (∀ p, resolveCountryFile "france.json" = .ok p →
      strEndsWith "france.json" ".json" = true ∧ COUNTRIES_DIR <+: p ∧
        p = pathResolve "france.json") :=
  ⟨⟨Or.inr (by decide),
    (resolveCountryFile_confined "../../etc/passwd.json").1 (Or.inr (by decide))⟩,
   ⟨Or.inr (by decide),
    (resolveCountryFile_confined "/etc/shadow.json").1 (Or.inr (by decide))⟩,
   (resolveCountryFile_confined "france.json").2⟩

/-! ## City Resolver/Generator (`generateCityInFile`) -/

/-- A city entry of a country record: the `name` field the code inspects,
plus the rest of the generated document abstracted as an opaque payload. -/
structure City where
  name : String
  payload : String
deriving Repr, DecidableEq

/-- A parsed country record file: its `name` and its `cities` array (the
code defaults a missing array to empty before this point). -/
structure CountryRec where
  name : String
  cities : List City
deriving Repr, DecidableEq

inductive GenErr
  | invalidFile (msg : String)
  | cityRequired
  | invalidAI
deriving Repr, DecidableEq

/-- The JSON body returned by the city-generation route. -/
structure GenOk where
  created : Bool
  city : String
  country : String
  file : String
deriving Repr, DecidableEq

/-- Model of the sort comparator
`String(a.name).localeCompare(String(b.name)) <= 0`: locale comparison at
primary strength compares the case-insensitive, diacritic-folded names,
with the raw strings as tie-breaker (faithful for Latin-script data). -/
def localeLe (x y : String) : Bool :=
  if normalizeName x = normalizeName y then decide (x ≤ y)
  else decide (normalizeName x < normalizeName y)

/-- The JS `generateCityInFile(fileName, city, fallbackCountry)`, with the
OpenAI call abstracted as `oracle : city → country hint → parsed reply`
(`none` = the reply was not parseable JSON). The country record read from
the resolved file is `rec`; the returned record is what is written back
(unchanged when no write happens). -/
def generateCityInFile (oracle : String → String → Option City)
    (fileName : String) (rec : CountryRec) (city : String) (fallbackCountry : String) :
    Except GenErr (GenOk × CountryRec) :=
  match resolveCountryFile fileName with
  | .error _ => .error (.invalidFile "Invalid file name or path.")
  | .ok _ =>
    if strTrim city = "" then .error .cityRequired
    else
      match rec.cities.find?
          (fun entry => normalizeName entry.name == normalizeName (strTrim city)) with
      | some existing => .ok (⟨false, existing.name, rec.name, fileName⟩, rec)
      | none =>
        match oracle (strTrim city) (if rec.name ≠ "" then rec.name else fallbackCountry) with
        | none => .error .invalidAI
        | some cityJSON =>
          if cityJSON.name = "" then .error .invalidAI
          else
            if normalizeName cityJSON.name ≠ normalizeName (strTrim city) then
              .ok (⟨true, strTrim city, rec.name, fileName⟩,
                   ⟨rec.name,
                    (rec.cities ++ [City.mk (strTrim city) cityJSON.payload]).mergeSort
                      (fun a b => localeLe a.name b.name)⟩)
            else
              .ok (⟨true, cityJSON.name, rec.name, fileName⟩,
                   ⟨rec.name,
                    (rec.cities ++ [cityJSON]).mergeSort
                      (fun a b => localeLe a.name b.name)⟩)

/-- Fast-path helper: a normalized-name match returns the stored record's
name with `created = false` and leaves the record untouched. -/
theorem generateCityInFile_fastpath
    (oracle : String → String → Option City) (fileName : String)
    (rec : CountryRec) (city fallbackCountry : String) (e : City) (q : List String)
    (hfile : resolveCountryFile fileName = .ok q)
    (htrim : ¬ strTrim city = "")
    (hfind : rec.cities.find? (fun entry =>
        normalizeName entry.name == normalizeName (strTrim city)) = some e) :
    generateCityInFile oracle fileName rec city fallbackCountry =
      .ok (⟨false, e.name, rec.name, fileName⟩, rec) := by
  unfold generateCityInFile
  rw [hfile, if_neg htrim, hfind]

/-- C10: when a city whose normalized name matches the requested name is
already present, resolve-or-generate returns `created = false` carrying
the stored record's own name (not the requested spelling) and performs no
write: the persisted country record is returned unchanged. -/
theorem generateCityInFile_existing_no_write
    (oracle : String → String → Option City) (fileName : String)
    (rec : CountryRec) (city fallbackCountry : String) (e : City) (q : List String)
    (hfile : resolveCountryFile fileName = .ok q)
    (htrim : ¬ strTrim city = "")
    (hfind : rec.cities.find? (fun entry =>
        normalizeName entry.name == normalizeName (strTrim city)) = some e) :
    generateCityInFile oracle fileName rec city fallbackCountry =
      .ok (⟨false, e.name, rec.name, fileName⟩, rec) :=
  generateCityInFile_fastpath oracle fileName rec city fallbackCountry e q hfile htrim hfind

/-- Fixture: a country record for France already containing Paris, with
the stored spelling "Paris". -/
def wFranceRec : CountryRec := ⟨"France", [⟨"Paris", "data"⟩]⟩

theorem generateCityInFile_existing_no_write_witness :
    (resolveCountryFile "france.json" = .ok ["app", "src", "data", "countries", "france.json"] ∧
     ¬ strTrim "  paris " = "" ∧
     wFranceRec.cities.find? (fun entry =>
        normalizeName entry.name == normalizeName (strTrim "  paris ")) =
       some ⟨"Paris", "data"⟩) ∧
    generateCityInFile (fun _ _ => none) "france.json" wFranceRec "  paris " "" =
      .ok (⟨false, "Paris", "France", "france.json"⟩, wFranceRec) :=
  ⟨⟨rfl, by decide, by decide⟩,
   generateCityInFile_existing_no_write (fun _ _ => none) "france.json" wFranceRec
     "  paris " "" ⟨"Paris", "data"⟩ ["app", "src", "data", "countries", "france.json"]
     rfl (by decide) (by decide)⟩

theorem localeLe_trans (x y z : String) :
    localeLe x y = true → localeLe y z = true → localeLe x z = true := by
  intro h1 h2
  unfold localeLe at h1 h2 ⊢
  by_cases hxy : normalizeName x = normalizeName y
  · rw [if_pos hxy] at h1
    by_cases hyz : normalizeName y = normalizeName z
    · rw [if_pos hyz] at h2
      rw [if_pos (hxy.trans hyz)]
      exact decide_eq_true (le_trans (of_decide_eq_true h1) (of_decide_eq_true h2))
    · rw [if_neg hyz] at h2
      have hlt : normalizeName y < normalizeName z := of_decide_eq_true h2
      have hxz : ¬ normalizeName x = normalizeName z := by
        rw [hxy]
        exact ne_of_lt hlt
      rw [if_neg hxz]
      exact decide_eq_true (by rw [hxy]; exact hlt)
  · rw [if_neg hxy] at h1
    have h1' : normalizeName x < normalizeName y := of_decide_eq_true h1
    by_cases hyz : normalizeName y = normalizeName z
    · have hxz : ¬ normalizeName x = normalizeName z := by
        rw [← hyz]
        exact hxy
      rw [if_neg hxz]
      exact decide_eq_true (by rw [← hyz]; exact h1')
    · rw [if_neg hyz] at h2
      have h2' : normalizeName y < normalizeName z := of_decide_eq_true h2
      have hlt := lt_trans h1' h2'
      rw [if_neg (ne_of_lt hlt)]
      exact decide_eq_true hlt

theorem localeLe_total (x y : String) : (localeLe x y || localeLe y x) = true := by
  unfold localeLe
  by_cases hxy : normalizeName x = normalizeName y
  · rw [if_pos hxy, if_pos hxy.symm]
    rcases le_total x y with h | h
    · simp [h]
    · simp [h]
  · rw [if_neg hxy, if_neg (fun h => hxy h.symm)]
    rcases lt_or_gt_of_ne hxy with h | h
    · simp [h]
    · simp [h]

theorem localeLe_norm_le (x y : String) :
    localeLe x y = true → normalizeName x ≤ normalizeName y := by
  intro h
  unfold localeLe at h
  by_cases hxy : normalizeName x = normalizeName y
  · exact le_of_eq hxy
  · rw [if_neg hxy] at h
    exact le_of_lt (of_decide_eq_true h)

/-- C6 counterexample: on a country record that already contains the
requested city ("Paris" in the France record), the first call already
returns `created = false` and the city count does not change — so the
claim, quantified over every country record, is false at this record. -/
theorem generateCityInFile_first_call_not_created :
    generateCityInFile (fun _ _ => none) "france.json" wFranceRec "Paris" "" =
      .ok (⟨false, "Paris", "France", "france.json"⟩, wFranceRec) := rfl

/-- Creation path, shared by the generator theorems: with a valid file
name, a non-blank trimmed city absent from the record, and an oracle
reply that parses with a non-empty name, the call inserts exactly one
city whose normalized name is the requested one and re-sorts. -/
theorem generateCityInFile_creates
    (oracle : String → String → Option City) (fileName : String)
    (rec : CountryRec) (city fallbackCountry : String) (q : List String) (cj : City)
    (hfile : resolveCountryFile fileName = .ok q)
    (htrim : ¬ strTrim city = "")
    (hnotfound : rec.cities.find? (fun entry =>
        normalizeName entry.name == normalizeName (strTrim city)) = none)
    (horacle : oracle (strTrim city)
        (if rec.name ≠ "" then rec.name else fallbackCountry) = some cj)
    (hcj : ¬ cj.name = "") :
    ∃ fn pl,
      normalizeName fn = normalizeName (strTrim city) ∧
      generateCityInFile oracle fileName rec city fallbackCountry =
        .ok (⟨true, fn, rec.name, fileName⟩,
             ⟨rec.name, (rec.cities ++ [City.mk fn pl]).mergeSort
                (fun a b => localeLe a.name b.name)⟩) := by
  by_cases hren : normalizeName cj.name ≠ normalizeName (strTrim city)
  · refine ⟨strTrim city, cj.payload, rfl, ?_⟩
    unfold generateCityInFile
    rw [hfile, if_neg htrim, hnotfound, horacle]
    dsimp only
    rw [if_neg hcj, if_pos hren]
  · push_neg at hren
    refine ⟨cj.name, cj.payload, hren, ?_⟩
    unfold generateCityInFile
    rw [hfile, if_neg htrim, hnotfound, horacle]
    dsimp only
    rw [if_neg hcj, if_neg (not_not_intro hren)]

/-- C6 (amended): for a country record in which the requested city is not
yet present, a city name that is non-blank after trimming, a valid file
name, and a generation-oracle reply that parses with a non-empty name,
calling resolve-or-generate twice in sequence with the same city name
yields `created = true` then `created = false`, the second call matches
by normalized name, returns immediately with the record unchanged, and
the record's city count increases by exactly 1 across the two calls. -/
theorem generateCityInFile_idempotent
    (oracle : String → String → Option City) (fileName : String)
    (rec : CountryRec) (city fallbackCountry : String) (q : List String) (cj : City)
    (hfile : resolveCountryFile fileName = .ok q)
    (htrim : ¬ strTrim city = "")
    (hnotfound : rec.cities.find? (fun entry =>
        normalizeName entry.name == normalizeName (strTrim city)) = none)
    (horacle : oracle (strTrim city)
        (if rec.name ≠ "" then rec.name else fallbackCountry) = some cj)
    (hcj : ¬ cj.name = "") :
    ∃ r1 rec1 r2,
      generateCityInFile oracle fileName rec city fallbackCountry = .ok (r1, rec1) ∧
      r1.created = true ∧
      rec1.cities.length = rec.cities.length + 1 ∧
      generateCityInFile oracle fileName rec1 city fallbackCountry = .ok (r2, rec1) ∧
      r2.created = false := by
  obtain ⟨fn, pl, hnorm, hrun⟩ := generateCityInFile_creates oracle fileName rec city
    fallbackCountry q cj hfile htrim hnotfound horacle hcj
  refine ⟨⟨true, fn, rec.name, fileName⟩,
    ⟨rec.name, (rec.cities ++ [City.mk fn pl]).mergeSort
      (fun a b => localeLe a.name b.name)⟩, ?_⟩
  have hmem : City.mk fn pl ∈ (rec.cities ++ [City.mk fn pl]).mergeSort
      (fun a b => localeLe a.name b.name) := by
    rw [List.mem_mergeSort]
    exact List.mem_append_right _ (List.mem_singleton.mpr rfl)
  have hsome : ∃ e, ((rec.cities ++ [City.mk fn pl]).mergeSort
      (fun a b => localeLe a.name b.name)).find? (fun entry =>
        normalizeName entry.name == normalizeName (strTrim city)) = some e := by
    rw [← Option.isSome_iff_exists]
    rw [List.find?_isSome]
    exact ⟨City.mk fn pl, hmem, by simp [hnorm]⟩
  obtain ⟨e, he⟩ := hsome
  have hrun2 := generateCityInFile_fastpath oracle fileName
    ⟨rec.name, (rec.cities ++ [City.mk fn pl]).mergeSort
      (fun a b => localeLe a.name b.name)⟩ city fallbackCountry e q hfile htrim he
  refine ⟨⟨false, e.name, rec.name, fileName⟩, hrun, rfl, ?_, hrun2, rfl⟩
  rw [List.length_mergeSort, List.length_append]
  rfl

/-- Fixture: a France record with no cities yet. -/
def wEmptyFrance : CountryRec := ⟨"France", []⟩

/-- Fixture: a generation oracle that always replies with a Paris document. -/
def wOracle : String → String → Option City := fun _ _ => some ⟨"Paris", "gen"⟩

theorem generateCityInFile_idempotent_witness :
    (resolveCountryFile "france.json" = .ok ["app", "src", "data", "countries", "france.json"] ∧
     ¬ strTrim "Paris" = "" ∧
     wEmptyFrance.cities.find? (fun entry =>
        normalizeName entry.name == normalizeName (strTrim "Paris")) = none ∧
     wOracle (strTrim "Paris")
        (if wEmptyFrance.name ≠ "" then wEmptyFrance.name else "") = some ⟨"Paris", "gen"⟩ ∧
     ¬ (City.mk "Paris" "gen").name = "") ∧
    (∃ r1 rec1 r2,
      generateCityInFile wOracle "france.json" wEmptyFrance "Paris" "" = .ok (r1, rec1) ∧
      r1.created = true ∧
      rec1.cities.length = wEmptyFrance.cities.length + 1 ∧
      generateCityInFile wOracle "france.json" rec1 "Paris" "" = .ok (r2, rec1) ∧
      r2.created = false) :=
  ⟨⟨rfl, by decide, rfl, rfl, by decide⟩,
   generateCityInFile_idempotent wOracle "france.json" wEmptyFrance "Paris" ""
     ["app", "src", "data", "countries", "france.json"] ⟨"Paris", "gen"⟩
     rfl (by decide) rfl rfl (by decide)⟩

/-- Inversion of a successful creation, shared by the generator theorems:
a `created = true` result means the requested city was absent, and the new
record is the old one with exactly one city appended (whose normalized
name is the requested one) and the whole list re-sorted. -/
theorem generateCityInFile_created_inv
    (oracle : String → String → Option City) (fileName : String)
    (rec : CountryRec) (city fallbackCountry : String)
    (r : GenOk) (rec2 : CountryRec)
    (hrun : generateCityInFile oracle fileName rec city fallbackCountry = .ok (r, rec2))
    (hcreated : r.created = true) :
    ∃ fn pl,
      rec.cities.find? (fun entry =>
        normalizeName entry.name == normalizeName (strTrim city)) = none ∧
      normalizeName fn = normalizeName (strTrim city) ∧
      rec2 = ⟨rec.name, (rec.cities ++ [City.mk fn pl]).mergeSort
        (fun a b => localeLe a.name b.name)⟩ := by
  unfold generateCityInFile at hrun
  split at hrun
  · cases hrun
  · split at hrun
    · cases hrun
    · split at hrun
      · rename_i existing heq
        have h := Except.ok.inj hrun
        have hr : (⟨false, existing.name, rec.name, fileName⟩ : GenOk) = r :=
          congrArg Prod.fst h
        rw [← hr] at hcreated
        simp at hcreated
      · rename_i heq
        split at hrun
        · cases hrun
        · rename_i cj horacle
          split at hrun
          · cases hrun
          · rename_i hcj
            split at hrun
            · have h := Except.ok.inj hrun
              refine ⟨strTrim city, cj.payload, heq, rfl, ?_⟩
              exact (congrArg Prod.snd h).symm
            · rename_i hren
              push_neg at hren
              have h := Except.ok.inj hrun
              refine ⟨cj.name, cj.payload, heq, hren, ?_⟩
              exact (congrArg Prod.snd h).symm

/-- C7: after every successful city insertion (a `created = true` result),
the country record's city list is sorted ascending by case-insensitive,
diacritic-folded name; and provided no two cities of the input record
shared a normalized name, no two cities of the output record do either. -/
theorem generateCityInFile_sorted_unique
    (oracle : String → String → Option City) (fileName : String)
    (rec : CountryRec) (city fallbackCountry : String) (r : GenOk) (rec2 : CountryRec)
    (hrun : generateCityInFile oracle fileName rec city fallbackCountry = .ok (r, rec2))
    (hcreated : r.created = true)
    (hdistinct : rec.cities.Pairwise
      (fun a b => ¬ normalizeName a.name = normalizeName b.name)) :
    rec2.cities.Pairwise (fun a b => normalizeName a.name ≤ normalizeName b.name) ∧
    rec2.cities.Pairwise (fun a b => ¬ normalizeName a.name = normalizeName b.name) := by
  obtain ⟨fn, pl, hnone, hnorm, hrec2⟩ :=
    generateCityInFile_created_inv oracle fileName rec city fallbackCountry r rec2 hrun hcreated
  subst hrec2
  constructor
  · have hs := @List.sorted_mergeSort City (fun a b => localeLe a.name b.name)
      (fun a b c hab hbc => localeLe_trans a.name b.name c.name hab hbc)
      (fun a b => localeLe_total a.name b.name)
      (rec.cities ++ [City.mk fn pl])
    exact hs.imp (fun hab => localeLe_norm_le _ _ hab)
  · have hperm := List.mergeSort_perm (rec.cities ++ [City.mk fn pl])
      (fun a b => localeLe a.name b.name)
    have hsymm : ∀ {x y : City}, ¬ normalizeName x.name = normalizeName y.name →
        ¬ normalizeName y.name = normalizeName x.name :=
      fun h he => h he.symm
    dsimp only
    rw [(List.Perm.pairwise_iff hsymm hperm :
      _ ↔ List.Pairwise _ (rec.cities ++ [City.mk fn pl])), List.pairwise_append]
    refine ⟨hdistinct, by simp, ?_⟩
    intro a ha b hb
    rw [List.mem_singleton] at hb
    subst hb
    have hnomatch := List.find?_eq_none.mp hnone a ha
    simp only [beq_iff_eq] at hnomatch
    show ¬ normalizeName a.name = normalizeName fn
    rw [hnorm]
    exact hnomatch

/-- Fixture: the France record after inserting Paris, as the generator
builds it (append then merge-sort). -/
def wSortedRec : CountryRec :=
  ⟨"France", (wEmptyFrance.cities ++ [City.mk "Paris" "gen"]).mergeSort
    (fun a b => localeLe a.name b.name)⟩

theorem generateCityInFile_sorted_unique_witness :
    (generateCityInFile wOracle "france.json" wEmptyFrance "Paris" "" =
       .ok (⟨true, "Paris", "France", "france.json"⟩, wSortedRec) ∧
     (⟨true, "Paris", "France", "france.json"⟩ : GenOk).created = true ∧
     wEmptyFrance.cities.Pairwise
       (fun a b => ¬ normalizeName a.name = normalizeName b.name)) ∧
    (wSortedRec.cities.Pairwise
       (fun a b => normalizeName a.name ≤ normalizeName b.name) ∧
     wSortedRec.cities.Pairwise
       (fun a b => ¬ normalizeName a.name = normalizeName b.name)) :=
  ⟨⟨rfl, rfl, List.Pairwise.nil⟩,
   generateCityInFile_sorted_unique wOracle "france.json" wEmptyFrance "Paris" ""
     ⟨true, "Paris", "France", "france.json"⟩ wSortedRec rfl rfl List.Pairwise.nil⟩

/-! ## Auth: signup and confirmation (`/api/auth/signup`, `/api/auth/confirm`) -/

/-- A pending-signup record from `pending_users.json`. -/
structure PendingUser where
  id : String
  name : String
  email : String
  passwordHash : String
  plan : String
  token : String
  createdAt : String
deriving Repr, DecidableEq

/-- Promotion of a consumed pending entry to a user record: plan falls
back to "free" when falsy, tokens start at 0 (a pending entry has no
tokens field, so `Number(entry.tokens || 0)` is 0). -/
def promote (entry : PendingUser) : User :=
  ⟨entry.id, entry.name, entry.email, entry.passwordHash,
   if entry.plan = "" then "free" else entry.plan, some 0⟩

/-- The `findIndex` + `splice(idx, 1)` pair of the confirm handler: return
the first entry whose token matches, together with the list with that one
entry removed; `none` when no entry matches. -/
def extractByToken (token : String) : List PendingUser → Option (PendingUser × List PendingUser)
  | [] => none
  | e :: es =>
    if e.token == token then some (e, es)
    else
      match extractByToken token es with
      | none => none
      | some (f, rest) => some (f, e :: rest)

inductive ConfirmRes
  | invalidToken
  | signed (u : User)
  | serverFailure
deriving Repr, DecidableEq

/-- The `/api/auth/confirm` handler: reject a missing or unknown token;
otherwise remove the pending entry and persist the pending file, then
promote it to a user record unless a user with that normalized email
already exists; finally sign a session token (`serverFailure` models a
missing JWT secret, after both writes). Returns the outcome, the pending
file and the users file after the call. -/
def confirm (jwtConfigured : Bool) (token : String)
    (pending : List PendingUser) (users : List User) :
    ConfirmRes × List PendingUser × List User :=
  if token = "" then (.invalidToken, pending, users)
  else
    match extractByToken token pending with
    | none => (.invalidToken, pending, users)
    | some (entry, pending2) =>
      match users.find? (fun u => normalizeEmail u.email == normalizeEmail entry.email) with
      | some u =>
        if jwtConfigured then (.signed u, pending2, users)
        else (.serverFailure, pending2, users)
      | none =>
        if jwtConfigured then (.signed (promote entry), pending2, users ++ [promote entry])
        else (.serverFailure, pending2, users ++ [promote entry])

theorem extractByToken_none (token : String) (l : List PendingUser)
    (h : ∀ x ∈ l, ¬ x.token = token) : extractByToken token l = none := by
  induction l with
  | nil => rfl
  | cons a as ih =>
    unfold extractByToken
    rw [if_neg ?hne]
    case hne =>
      simp only [beq_iff_eq]
      exact h a (List.mem_cons_self _ _)
    rw [ih (fun x hx => h x (List.mem_cons_of_mem _ hx))]

theorem extractByToken_found (token : String) (l₁ l₂ : List PendingUser) (e : PendingUser)
    (he : e.token = token)
    (h1 : ∀ x ∈ l₁, ¬ x.token = token) :
    extractByToken token (l₁ ++ e :: l₂) = some (e, l₁ ++ l₂) := by
  induction l₁ with
  | nil =>
    simp only [List.nil_append]
    unfold extractByToken
    rw [if_pos (by simp [he])]
  | cons a as ih =>
    simp only [List.cons_append]
    unfold extractByToken
    rw [if_neg ?hne]
    case hne =>
      simp only [beq_iff_eq]
      exact h1 a (List.mem_cons_self _ _)
    rw [ih (fun x hx => h1 x (List.mem_cons_of_mem _ hx))]

/-- C8: for a fresh signup whose confirmation token appears in exactly one
pending entry, consuming the token removes that pending entry and
promotes exactly one user record (appending none when a user with that
normalized email already exists — no duplicate); consuming the same token
a second time fails with the invalid-token response and changes nothing. -/
theorem confirm_round_trip
    (token : String) (l₁ l₂ : List PendingUser) (e : PendingUser) (users : List User)
    (htok : ¬ token = "")
    (he : e.token = token)
    (h1 : ∀ x ∈ l₁, ¬ x.token = token)
    (h2 : ∀ x ∈ l₂, ¬ x.token = token) :
    ∃ res1 u1,
      confirm true token (l₁ ++ e :: l₂) users = (res1, l₁ ++ l₂, u1) ∧
      res1 ≠ .invalidToken ∧
      ((users.find? (fun u => normalizeEmail u.email == normalizeEmail e.email) = none ∧
          u1 = users ++ [promote e]) ∨
       (∃ u, users.find? (fun u => normalizeEmail u.email == normalizeEmail e.email) = some u ∧
          u1 = users)) ∧
      confirm true token (l₁ ++ l₂) u1 = (.invalidToken, l₁ ++ l₂, u1) := by
  have hex := extractByToken_found token l₁ l₂ e he h1
  have hnone : extractByToken token (l₁ ++ l₂) = none := by
    apply extractByToken_none
    intro x hx
    rcases List.mem_append.mp hx with hx | hx
    · exact h1 x hx
    · exact h2 x hx
  cases hfind : users.find? (fun u => normalizeEmail u.email == normalizeEmail e.email) with
  | some u =>
    refine ⟨.signed u, users, ?_, by simp, Or.inr ⟨u, rfl, rfl⟩, ?_⟩
    · unfold confirm
      rw [if_neg htok, hex]
      dsimp only
      rw [hfind]
      rfl
    · unfold confirm
      rw [if_neg htok, hnone]
  | none =>
    refine ⟨.signed (promote e), users ++ [promote e], ?_, by simp, Or.inl ⟨rfl, rfl⟩, ?_⟩
    · unfold confirm
      rw [if_neg htok, hex]
      dsimp only
      rw [hfind]
      rfl
    · unfold confirm
      rw [if_neg htok, hnone]

/-- Fixture: a pending signup entry with token "tkn". -/
def wPending : PendingUser := ⟨"u_1", "bob", "b@x.com", "h", "free", "tkn", "t0"⟩

theorem confirm_round_trip_witness :
    (¬ ("tkn" : String) = "" ∧
     wPending.token = "tkn" ∧
     (∀ x ∈ ([] : List PendingUser), ¬ x.token = "tkn") ∧
     (∀ x ∈ ([] : List PendingUser), ¬ x.token = "tkn")) ∧
    (∃ res1 u1,
      confirm true "tkn" ([] ++ wPending :: []) [] = (res1, [] ++ [], u1) ∧
      res1 ≠ .invalidToken ∧
      (([].find? (fun u : User => normalizeEmail u.email == normalizeEmail wPending.email) = none ∧
          u1 = [] ++ [promote wPending]) ∨
       (∃ u, [].find? (fun u : User =>
            normalizeEmail u.email == normalizeEmail wPending.email) = some u ∧
          u1 = [])) ∧
      confirm true "tkn" ([] ++ []) u1 = (.invalidToken, [] ++ [], u1)) :=
  ⟨⟨by decide, rfl, fun x hx => absurd hx (List.not_mem_nil x),
      fun x hx => absurd hx (List.not_mem_nil x)⟩,
   confirm_round_trip "tkn" [] [] wPending []
     (by decide) rfl
     (fun x hx => absurd hx (List.not_mem_nil x))
     (fun x hx => absurd hx (List.not_mem_nil x))⟩

inductive SignupRes
  | badRequest
  | emailExists
  | nameExists
  | pendingEmailExists
  | pendingNameExists
  | mailFailure
  | ok
deriving Repr, DecidableEq

/-- The `/api/auth/signup` handler: validate presence of name/email/
password and a non-empty normalized name; reject duplicates of normalized
email or name against both the users and pending collections; then queue
a pending entry (persisting the pending file) and send the confirmation
mail. `mailOk` is the mail-transport oracle; on a failed send the queued
entry is popped and the file re-persisted before the error is surfaced.
The hash, token, id and creation timestamp are generated upstream and
passed in. Returns the outcome and the pending file after the call. -/
def signup (users : List User) (pending : List PendingUser)
    (name email password passwordHash token id createdAt : String) (mailOk : Bool) :
    SignupRes × List PendingUser :=
  if name = "" ∨ email = "" ∨ password = "" then (.badRequest, pending)
  else if normalizeUserName name = "" then (.badRequest, pending)
  else if (users.find? (fun u => normalizeEmail u.email == normalizeEmail email)).isSome then
    (.emailExists, pending)
  else if (users.find? (fun u => normalizeUserName u.name == normalizeUserName name)).isSome then
    (.nameExists, pending)
  else if (pending.find? (fun u => normalizeEmail u.email == normalizeEmail email)).isSome then
    (.pendingEmailExists, pending)
  else if (pending.find? (fun u => normalizeUserName u.name == normalizeUserName name)).isSome then
    (.pendingNameExists, pending)
  else
    let pending2 := pending ++
      [⟨id, normalizeUserName name, normalizeEmail email, passwordHash, "free", token, createdAt⟩]
    if mailOk then (.ok, pending2)
    else (.mailFailure, pending2.dropLast)

/-- C9: when mail delivery fails after the pending entry was queued (all
validation and uniqueness checks passed), the queued entry is popped and
the persisted pending collection ends up exactly as it was before the
signup request, with the failure surfaced. -/
theorem signup_mail_failure_rolls_back
    (users : List User) (pending : List PendingUser)
    (name email password passwordHash token id createdAt : String)
    (hname : ¬ name = "") (hemail : ¬ email = "") (hpw : ¬ password = "")
    (hnn : ¬ normalizeUserName name = "")
    (hu1 : users.find? (fun u => normalizeEmail u.email == normalizeEmail email) = none)
    (hu2 : users.find? (fun u => normalizeUserName u.name == normalizeUserName name) = none)
    (hp1 : pending.find? (fun u => normalizeEmail u.email == normalizeEmail email) = none)
    (hp2 : pending.find? (fun u => normalizeUserName u.name == normalizeUserName name) = none) :
    signup users pending name email password passwordHash token id createdAt false =
      (.mailFailure, pending) := by
  unfold signup
  rw [if_neg (by push_neg; exact ⟨hname, hemail, hpw⟩), if_neg hnn]
  rw [hu1, hu2, hp1, hp2]
  simp only [Option.isSome_none, Bool.false_eq_true, if_false]
  rw [List.dropLast_concat]

theorem signup_mail_failure_rolls_back_witness :
    (¬ ("Bob" : String) = "" ∧ ¬ ("b@x.com" : String) = "" ∧ ¬ ("pw" : String) = "" ∧
     ¬ normalizeUserName "Bob" = "" ∧
     ([] : List User).find? (fun u => normalizeEmail u.email == normalizeEmail "b@x.com") = none ∧
     ([] : List User).find? (fun u => normalizeUserName u.name == normalizeUserName "Bob") = none ∧
     ([] : List PendingUser).find?
        (fun u => normalizeEmail u.email == normalizeEmail "b@x.com") = none ∧
     ([] : List PendingUser).find?
        (fun u => normalizeUserName u.name == normalizeUserName "Bob") = none) ∧
    signup [] [] "Bob" "b@x.com" "pw" "h" "tkn" "u_1" "t0" false = (.mailFailure, []) :=
  ⟨⟨by decide, by decide, by decide, by decide, rfl, rfl, rfl, rfl⟩,
   signup_mail_failure_rolls_back [] [] "Bob" "b@x.com" "pw" "h" "tkn" "u_1" "t0"
     (by decide) (by decide) (by decide) (by decide) rfl rfl rfl rfl⟩
